import Mathlib

/-!
Verification of `scripts/get_gurufocus_margin_of_safety.py`.

Shallow embedding of the GuruFocus "Margin of Safety" extractor.

Text is modelled as `List Char`.  Numeric results are modelled as `ℚ`:
the matched tokens are finite decimal strings, so the values they denote
are exact rationals (Python's `float(...)` rounds such a decimal to the
nearest double, but every claim compares a parsed token with the decimal
it denotes, and that comparison is representation-independent).

The two regular expressions of the source,

* `MOS_RE = ([+-]?\d+(?:\.\d+)?)\s*%`
* the calculation pattern `=\s*([+-]?\d+(?:\.\d+)?)\s*%`,

are embedded as deterministic maximal-munch matchers.  For these
particular patterns maximal munch coincides with Python's backtracking
semantics: shrinking a greedy `\d+`, `(?:\.\d+)?` or `\s*` always leaves
a digit, a dot or a space as the next character, on which the following
sub-pattern fails as well, so no backtracking alternative succeeds when
the greedy one fails.  `re.search` (leftmost match) is embedded as a
left-to-right scan over all start positions.  `\d` and `\s` are modelled
at ASCII granularity (the Unicode extras of Python's `re` play no role
in the claims).
-/

/-- ASCII decimal digit, the model of `\d`. -/
def isDigitChar (c : Char) : Bool := '0' ≤ c && c ≤ '9'

/-- ASCII whitespace as matched by Python's `\s`: space, tab, newline,
carriage return, vertical tab, form feed. -/
def isSpaceChar (c : Char) : Bool :=
  c = ' ' || c = '\t' || c = '\n' || c = '\r' || c = '\x0b' || c = '\x0c'

/-- Does `\s*%` match at the front of `cs`?  (Greedily skip whitespace,
then require a percent sign.) -/
def percentAfterSpaces (cs : List Char) : Bool :=
  match cs.dropWhile isSpaceChar with
  | c :: _ => c = '%'
  | [] => false

/-- Continuation of `matchNumTail` after the greedy integer-digit run:
`ds` are the digits read so far, `rest` is the remaining input.  Matches
`(?:\.\d+)?\s*%` and returns the numeric part of the capture group. -/
def matchAfterDigits (ds : List Char) : List Char → Option (List Char)
  | [] => none
  | c :: r2 =>
    if c = '.' then
      if r2.takeWhile isDigitChar = [] then none
      else if percentAfterSpaces (r2.dropWhile isDigitChar) then
        some (ds ++ '.' :: r2.takeWhile isDigitChar)
      else none
    else if percentAfterSpaces (c :: r2) then some ds else none

/-- Match `\d+(?:\.\d+)?\s*%` at the front of `cs`, returning the
matched numeric characters (the part of capture group 1 after the
optional sign): the integer digits and, when present, the dot and the
fractional digits. -/
def matchNumTail (cs : List Char) : Option (List Char) :=
  if cs.takeWhile isDigitChar = [] then none
  else matchAfterDigits (cs.takeWhile isDigitChar) (cs.dropWhile isDigitChar)

/-- Match `MOS_RE = ([+-]?\d+(?:\.\d+)?)\s*%` at the front of `cs`,
returning capture group 1. -/
def matchMOSAt (cs : List Char) : Option (List Char) :=
  match cs with
  | [] => none
  | c :: t =>
    if c = '+' ∨ c = '-' then (matchNumTail t).map (fun g => c :: g)
    else matchNumTail (c :: t)

/-- `MOS_RE.search`: scan start positions left to right, return capture
group 1 of the leftmost match. -/
def searchMOS : List Char → Option (List Char)
  | [] => none
  | c :: t =>
    match matchMOSAt (c :: t) with
    | some g => some g
    | none => searchMOS t

/-- Match the calculation pattern `=\s*([+-]?\d+(?:\.\d+)?)\s*%` at the
front of `cs`, returning capture group 1. -/
def matchCalcAt (cs : List Char) : Option (List Char) :=
  match cs with
  | [] => none
  | c :: t => if c = '=' then matchMOSAt (t.dropWhile isSpaceChar) else none

/-- `re.search` with the calculation pattern: leftmost match, capture
group 1. -/
def searchCalc : List Char → Option (List Char)
  | [] => none
  | c :: t =>
    match matchCalcAt (c :: t) with
    | some g => some g
    | none => searchCalc t

/-- Value of a list of decimal digits (most significant first). -/
def digitsVal (ds : List Char) : ℕ :=
  ds.foldl (fun a c => 10 * a + (c.toNat - 48)) 0

/-- Digits of a decimal token before the first dot. -/
def intDigits : List Char → List Char
  | [] => []
  | c :: t => if c = '.' then [] else c :: intDigits t

/-- Digits of a decimal token after the first dot (empty when there is
no dot). -/
def fracDigits : List Char → List Char
  | [] => []
  | c :: t => if c = '.' then t else fracDigits t

/-- Unsigned value of a decimal token `\d+(\.\d+)?`. -/
def pyAbs (t : List Char) : ℚ :=
  (digitsVal (intDigits t) : ℚ) +
    (digitsVal (fracDigits t) : ℚ) / 10 ^ (fracDigits t).length

/-- Python's `float(...)` applied to a captured token of shape
`[+-]?\d+(\.\d+)?`: the exact rational the signed decimal denotes. -/
def pyFloat (s : List Char) : ℚ :=
  match s with
  | [] => pyAbs []
  | c :: t => if c = '-' then -pyAbs t else if c = '+' then pyAbs t else pyAbs (c :: t)

/-- The anchor phrase searched for in the lower-cased text. -/
def mosKeyword : List Char := "margin of safety".data

/-- Python `str.find`: index of the first occurrence of `pat` as a
substring, `none` when absent (the source compares with `-1`). -/
def findSub (pat : List Char) : List Char → Option ℕ
  | [] => if pat.isPrefixOf ([] : List Char) then some 0 else none
  | c :: t =>
    if pat.isPrefixOf (c :: t) then some 0
    else (findSub pat t).map (· + 1)

/-- Tiers 2 and 3 of `_extract_mos_from_text`: the calculation-line
search over the whole text, then the bare `MOS_RE` search over the whole
text. -/
def extractTier23 (text : List Char) : Option ℚ :=
  match searchCalc text with
  | some g => some (pyFloat g)
  | none => (searchMOS text).map pyFloat

/-- `_extract_mos_from_text`: empty text yields `none`; otherwise tier 1
searches `MOS_RE` in the 700-character window of the original text
starting at the first case-insensitive occurrence of the keyword, and on
failure tiers 2 and 3 run over the whole text. -/
def extractMosFromText (text : List Char) : Option ℚ :=
  if text = [] then none
  else
    match findSub mosKeyword (text.map Char.toLower) with
    | some idx =>
      match searchMOS ((text.drop idx).take 700) with
      | some g => some (pyFloat g)
      | none => extractTier23 text
    | none => extractTier23 text

/-- Instrumented variant of `_extract_mos_from_text` recording which
tier produced the value (1 = anchored window, 2 = calculation line,
3 = first percentage anywhere).  Same control flow as the source. -/
def extractMosTiered (text : List Char) : Option (ℚ × ℕ) :=
  if text = [] then none
  else
    match findSub mosKeyword (text.map Char.toLower) with
    | some idx =>
      match searchMOS ((text.drop idx).take 700) with
      | some g => some (pyFloat g, 1)
      | none =>
        match searchCalc text with
        | some g => some (pyFloat g, 2)
        | none => (searchMOS text).map (fun g => (pyFloat g, 3))
    | none =>
      match searchCalc text with
      | some g => some (pyFloat g, 2)
      | none => (searchMOS text).map (fun g => (pyFloat g, 3))

/-! ## Fetch and orchestration models

The HTTP client, the HTML-to-text conversion and the browser engine are
external collaborators; the source's control flow around them is
embedded with their outcomes as parameters.  An `Except Unit` value
models "returned normally" versus "raised an exception". -/

/-- `requests.Response.raise_for_status` raises exactly for client and
server error statuses, 400–599. -/
def raiseForStatusRaises (status : ℕ) : Bool := 400 ≤ status && status < 600

/-- `get_margin_of_safety_requests`, given the HTTP status of the
response and the visible text of its body (the `BeautifulSoup`
conversion is a collaborator): 403 returns `None`; other 4xx/5xx raise
via `raise_for_status`; otherwise the body text is parsed. -/
def get_margin_of_safety_requests (status : ℕ) (bodyText : List Char) :
    Except Unit (Option ℚ) :=
  if status = 403 then .ok none
  else if raiseForStatusRaises status then .error ()
  else .ok (extractMosFromText bodyText)

/-- Steps of `_get_margin_of_safety_playwright_async` that are visible
to the browser collaborator. -/
inductive PWEvent
  | launch
  | newContext
  | newPage
  | gotoNav
  | waitSettle
  | evalText
  | ctxClose
  | browserClose
  deriving BEq, DecidableEq

/-- The sequence of browser-collaborator calls performed by
`_get_margin_of_safety_playwright_async`.  When `gotoRaises` is true the
`page.goto` await raises (e.g. a navigation timeout) and the remaining
statements of the `async with` body — including `ctx.close()` and
`browser.close()` — are skipped while the exception propagates. -/
def playwrightEvents (gotoRaises : Bool) : List PWEvent :=
  [.launch, .newContext, .newPage, .gotoNav] ++
    (if gotoRaises then []
     else [.waitSettle, .evalText, .ctxClose, .browserClose])

/-- Result of `_get_margin_of_safety_playwright_async`: an exception
when navigation raises, otherwise the extracted value paired with the
status string. -/
def playwrightResult (gotoRaises : Bool) (renderedText : List Char) :
    Except Unit (Option ℚ × String) :=
  if gotoRaises then .error ()
  else
    .ok (extractMosFromText renderedText,
      if (extractMosFromText renderedText).isSome then "ok" else "mos_not_found")

/-- `get_margin_of_safety`, with the outcomes of the two fetch paths as
parameters.  The Boolean in the result records whether the render path
(`asyncio.run(_get_margin_of_safety_playwright_async ...)`) was
invoked.  A fast-path exception is swallowed by the `try`/`except`; a
render-path exception propagates to the caller. -/
def get_margin_of_safety (prefer_requests : Bool)
    (fastOutcome : Except Unit (Option ℚ))
    (renderOutcome : Except Unit (Option ℚ × String)) :
    Except Unit (Option ℚ) × Bool :=
  if prefer_requests then
    match fastOutcome with
    | .ok (some v) => (.ok (some v), false)
    | _ =>
      match renderOutcome with
      | .ok r => (.ok r.1, true)
      | .error e => (.error e, true)
  else
    match renderOutcome with
    | .ok r => (.ok r.1, true)
    | .error e => (.error e, true)

-- Sanity checks (token level, no rational normalization).
example : searchMOS "abc 7.5% def".data = some "7.5".data := by decide
example : searchMOS " -19.02 %".data = some "-19.02".data := by decide
example : searchCalc "x = -19.02 % y".data = some "-19.02".data := by decide
example : searchCalc "no equals 5% here".data = none := by decide
example : findSub mosKeyword ("The Margin of Safety is".data.map Char.toLower) = some 4 := by
  decide
example : extractMosFromText "".data = none := by decide
example : extractMosFromText "nothing here".data = none := by decide
example : matchMOSAt "5 %!".data = some "5".data := by decide
example : matchMOSAt "12.3.4%".data = none := by decide
example : searchMOS "12.3.4%".data = some "3.4".data := by decide

/-! ## Character facts -/

lemma ne_dot_of_digit {c : Char} (h : isDigitChar c = true) : c ≠ '.' := by
  simp only [isDigitChar, Bool.and_eq_true, decide_eq_true_eq] at h
  rintro rfl
  exact absurd h.1 (by decide)

lemma ne_plus_of_digit {c : Char} (h : isDigitChar c = true) : c ≠ '+' := by
  simp only [isDigitChar, Bool.and_eq_true, decide_eq_true_eq] at h
  rintro rfl
  exact absurd h.1 (by decide)

lemma ne_minus_of_digit {c : Char} (h : isDigitChar c = true) : c ≠ '-' := by
  simp only [isDigitChar, Bool.and_eq_true, decide_eq_true_eq] at h
  rintro rfl
  exact absurd h.1 (by decide)

/-! ## Scanning a longer list

A successful match at the front of `l₁` is preserved when `l₁` is
extended on the right: every greedy run in a successful match is stopped
by an actual character of `l₁` (ultimately the `%`), never by running
out of input. -/

lemma takeWhile_append_of_dropWhile_ne_nil {p : Char → Bool} {l₁ : List Char}
    (l₂ : List Char) (h : l₁.dropWhile p ≠ []) :
    (l₁ ++ l₂).takeWhile p = l₁.takeWhile p ∧
      (l₁ ++ l₂).dropWhile p = l₁.dropWhile p ++ l₂ := by
  induction l₁ with
  | nil => exact absurd rfl h
  | cons c t ih =>
    cases hp : p c with
    | true =>
      have ht : t.dropWhile p ≠ [] := by
        simpa [List.dropWhile_cons, hp] using h
      have := ih ht
      simp [List.takeWhile_cons, List.dropWhile_cons, hp, this.1, this.2]
    | false =>
      simp [List.takeWhile_cons, List.dropWhile_cons, hp]

lemma percentAfterSpaces_append {l₁ : List Char} (l₂ : List Char)
    (h : percentAfterSpaces l₁ = true) :
    percentAfterSpaces (l₁ ++ l₂) = true := by
  rw [percentAfterSpaces] at h
  rcases hd : l₁.dropWhile isSpaceChar with _ | ⟨c, r⟩
  · rw [hd] at h; exact absurd h (by simp)
  · rw [hd] at h
    have hne : l₁.dropWhile isSpaceChar ≠ [] := by rw [hd]; simp
    have := (takeWhile_append_of_dropWhile_ne_nil l₂ hne).2
    rw [percentAfterSpaces, this, hd]
    simpa using h

lemma matchAfterDigits_append {ds rest : List Char} (l₂ : List Char) {g : List Char}
    (h : matchAfterDigits ds rest = some g) :
    matchAfterDigits ds (rest ++ l₂) = some g := by
  rcases rest with _ | ⟨c, r2⟩
  · exact absurd h (by simp [matchAfterDigits])
  rw [List.cons_append]
  rw [matchAfterDigits] at h ⊢
  by_cases hcdot : c = '.'
  · rw [if_pos hcdot] at h ⊢
    by_cases hfs0 : r2.takeWhile isDigitChar = []
    · rw [if_pos hfs0] at h; exact absurd h (by simp)
    rw [if_neg hfs0] at h
    have hr3 : r2.dropWhile isDigitChar ≠ [] := by
      intro hnil
      rw [hnil] at h
      exact absurd h (by simp [percentAfterSpaces])
    have happ2 := takeWhile_append_of_dropWhile_ne_nil l₂ hr3
    rw [happ2.1, happ2.2, if_neg hfs0]
    by_cases hpct : percentAfterSpaces (r2.dropWhile isDigitChar) = true
    · rw [if_pos hpct] at h
      rw [if_pos (percentAfterSpaces_append l₂ hpct)]
      exact h
    · rw [if_neg hpct] at h; exact absurd h (by simp)
  · rw [if_neg hcdot] at h ⊢
    by_cases hpct : percentAfterSpaces (c :: r2) = true
    · rw [if_pos hpct] at h
      have hp2 : percentAfterSpaces (c :: (r2 ++ l₂)) = true := by
        have := @percentAfterSpaces_append (c :: r2) l₂ hpct
        simpa using this
      rw [if_pos hp2]
      exact h
    · rw [if_neg hpct] at h; exact absurd h (by simp)

lemma matchNumTail_append {l₁ : List Char} (l₂ : List Char) {g : List Char}
    (h : matchNumTail l₁ = some g) : matchNumTail (l₁ ++ l₂) = some g := by
  rw [matchNumTail] at h
  by_cases hds0 : l₁.takeWhile isDigitChar = []
  · rw [if_pos hds0] at h; exact absurd h (by simp)
  rw [if_neg hds0] at h
  have hne : l₁.dropWhile isDigitChar ≠ [] := by
    intro hnil
    rw [hnil] at h
    exact absurd h (by simp [matchAfterDigits])
  have happ := takeWhile_append_of_dropWhile_ne_nil l₂ hne
  rw [matchNumTail, happ.1, if_neg hds0, happ.2]
  exact matchAfterDigits_append l₂ h

lemma matchMOSAt_append {l₁ : List Char} (l₂ : List Char) {g : List Char}
    (h : matchMOSAt l₁ = some g) : matchMOSAt (l₁ ++ l₂) = some g := by
  rcases l₁ with _ | ⟨c, t⟩
  · exact absurd h (by simp [matchMOSAt])
  · rw [matchMOSAt] at h
    rw [List.cons_append, matchMOSAt]
    by_cases hsgn : c = '+' ∨ c = '-'
    · rw [if_pos hsgn] at h ⊢
      rcases Option.map_eq_some'.1 h with ⟨g', hg', rfl⟩
      rw [matchNumTail_append l₂ hg']
      rfl
    · rw [if_neg hsgn] at h ⊢
      have := @matchNumTail_append (c :: t) l₂ g h
      simpa using this

lemma matchMOSAt_of_take {l : List Char} {n : ℕ} {g : List Char}
    (h : matchMOSAt (l.take n) = some g) : matchMOSAt l = some g := by
  have := matchMOSAt_append (l.drop n) h
  rwa [List.take_append_drop] at this

/-! ## Leftmost-search lemmas -/

lemma searchMOS_eq_some_exists {l : List Char} {g : List Char}
    (h : searchMOS l = some g) : ∃ j, matchMOSAt (l.drop j) = some g := by
  induction l with
  | nil => exact absurd h (by simp [searchMOS])
  | cons c t ih =>
    rw [searchMOS] at h
    rcases hm : matchMOSAt (c :: t) with _ | g'
    · rw [hm] at h
      rcases ih h with ⟨j, hj⟩
      exact ⟨j + 1, hj⟩
    · rw [hm] at h
      exact ⟨0, by simpa [hm] using h⟩

lemma matchMOSAt_drop_eq_none_of_searchMOS_eq_none {l : List Char}
    (h : searchMOS l = none) : ∀ j, matchMOSAt (l.drop j) = none := by
  induction l with
  | nil => intro j; simp [matchMOSAt]
  | cons c t ih =>
    rw [searchMOS] at h
    rcases hm : matchMOSAt (c :: t) with _ | g'
    · rw [hm] at h
      intro j
      match j with
      | 0 => simpa using hm
      | j + 1 => exact ih h j
    · rw [hm] at h; exact absurd h (by simp)

lemma searchMOS_isSome_of_matchMOSAt {l : List Char} {j : ℕ} {g : List Char}
    (h : matchMOSAt (l.drop j) = some g) : (searchMOS l).isSome := by
  rcases hs : searchMOS l with _ | g'
  · have := matchMOSAt_drop_eq_none_of_searchMOS_eq_none hs j
    rw [this] at h
    exact absurd h (by simp)
  · rfl

lemma dropWhile_eq_drop_length_takeWhile (p : Char → Bool) (l : List Char) :
    l.dropWhile p = l.drop (l.takeWhile p).length := by
  induction l with
  | nil => rfl
  | cons c t ih =>
    cases hp : p c <;>
      simp [List.takeWhile_cons, List.dropWhile_cons, hp, ih]

lemma matchCalcAt_imp_matchMOSAt {l : List Char} {g : List Char}
    (h : matchCalcAt l = some g) : ∃ j, matchMOSAt (l.drop j) = some g := by
  rcases l with _ | ⟨c, t⟩
  · exact absurd h (by simp [matchCalcAt])
  rw [matchCalcAt] at h
  by_cases hc : c = '='
  · rw [if_pos hc] at h
    refine ⟨(t.takeWhile isSpaceChar).length + 1, ?_⟩
    rw [List.drop_succ_cons, ← dropWhile_eq_drop_length_takeWhile]
    exact h
  · rw [if_neg hc] at h; exact absurd h (by simp)

lemma searchCalc_eq_some_exists {l : List Char} {g : List Char}
    (h : searchCalc l = some g) : ∃ j, matchMOSAt (l.drop j) = some g := by
  induction l with
  | nil => exact absurd h (by simp [searchCalc])
  | cons c t ih =>
    rw [searchCalc] at h
    rcases hm : matchCalcAt (c :: t) with _ | g'
    · rw [hm] at h
      rcases ih h with ⟨j, hj⟩
      exact ⟨j + 1, hj⟩
    · rw [hm] at h
      have hg : g' = g := by simpa using h
      subst hg
      exact matchCalcAt_imp_matchMOSAt hm

/-! ## Unfolding the extractor tier by tier -/

lemma findSub_mosKeyword_nil : findSub mosKeyword [] = none := by decide

lemma ne_nil_of_findSub_eq_some {T : List Char} {idx : ℕ}
    (h : findSub mosKeyword (T.map Char.toLower) = some idx) : T ≠ [] := by
  rintro rfl
  rw [List.map_nil, findSub_mosKeyword_nil] at h
  exact absurd h (by simp)

lemma extract_of_tier1 {T : List Char} {idx : ℕ} {g : List Char}
    (h1 : findSub mosKeyword (T.map Char.toLower) = some idx)
    (h2 : searchMOS ((T.drop idx).take 700) = some g) :
    extractMosFromText T = some (pyFloat g) ∧
      extractMosTiered T = some (pyFloat g, 1) := by
  have hT := ne_nil_of_findSub_eq_some h1
  constructor
  · simp [extractMosFromText, hT, h1, h2]
  · simp [extractMosTiered, hT, h1, h2]

lemma extract_of_tier2 {T : List Char} {g : List Char}
    (h1 : ∀ idx, findSub mosKeyword (T.map Char.toLower) = some idx →
      searchMOS ((T.drop idx).take 700) = none)
    (h2 : searchCalc T = some g) :
    extractMosFromText T = some (pyFloat g) ∧
      extractMosTiered T = some (pyFloat g, 2) := by
  have hT : T ≠ [] := by
    rintro rfl
    exact absurd h2 (by simp [searchCalc])
  constructor
  · rcases hf : findSub mosKeyword (T.map Char.toLower) with _ | idx
    · simp [extractMosFromText, hT, hf, extractTier23, h2]
    · simp [extractMosFromText, hT, hf, h1 idx hf, extractTier23, h2]
  · rcases hf : findSub mosKeyword (T.map Char.toLower) with _ | idx
    · simp [extractMosTiered, hT, hf, h2]
    · simp [extractMosTiered, hT, hf, h1 idx hf, h2]

lemma extract_of_tier3 {T : List Char}
    (h1 : ∀ idx, findSub mosKeyword (T.map Char.toLower) = some idx →
      searchMOS ((T.drop idx).take 700) = none)
    (h2 : searchCalc T = none) :
    extractMosFromText T = (searchMOS T).map pyFloat ∧
      extractMosTiered T = (searchMOS T).map (fun g => (pyFloat g, 3)) := by
  rcases hTnil : T with _ | ⟨c, t⟩
  · constructor <;> simp [extractMosFromText, extractMosTiered, searchMOS]
  rw [← hTnil]
  have hT : T ≠ [] := by rw [hTnil]; simp
  constructor
  · rcases hf : findSub mosKeyword (T.map Char.toLower) with _ | idx
    · simp [extractMosFromText, hT, hf, extractTier23, h2]
    · simp [extractMosFromText, hT, hf, h1 idx hf, extractTier23, h2]
  · rcases hf : findSub mosKeyword (T.map Char.toLower) with _ | idx
    · simp [extractMosTiered, hT, hf, h2]
    · simp [extractMosTiered, hT, hf, h1 idx hf, h2]

/-! ## Evaluating `pyFloat` on well-formed tokens -/

lemma intDigits_fracDigits_append_dot {I : List Char} (F : List Char)
    (hI : ∀ c ∈ I, isDigitChar c = true) :
    intDigits (I ++ '.' :: F) = I ∧ fracDigits (I ++ '.' :: F) = F := by
  induction I with
  | nil => constructor <;> simp [intDigits, fracDigits]
  | cons c t ih =>
    have hc : c ≠ '.' := ne_dot_of_digit (hI c (by simp))
    have ht := ih (fun x hx => hI x (by simp [hx]))
    constructor
    · rw [List.cons_append, intDigits, if_neg hc, ht.1]
    · rw [List.cons_append, fracDigits, if_neg hc, ht.2]

lemma intDigits_fracDigits_nodot {I : List Char}
    (hI : ∀ c ∈ I, isDigitChar c = true) :
    intDigits I = I ∧ fracDigits I = [] := by
  induction I with
  | nil => constructor <;> rfl
  | cons c t ih =>
    have hc : c ≠ '.' := ne_dot_of_digit (hI c (by simp))
    have ht := ih (fun x hx => hI x (by simp [hx]))
    constructor
    · rw [intDigits, if_neg hc, ht.1]
    · rw [fracDigits, if_neg hc, ht.2]

lemma pyAbs_append_dot {I : List Char} (F : List Char)
    (hI : ∀ c ∈ I, isDigitChar c = true) :
    pyAbs (I ++ '.' :: F) =
      (digitsVal I : ℚ) + (digitsVal F : ℚ) / 10 ^ F.length := by
  have h := intDigits_fracDigits_append_dot F hI
  rw [pyAbs, h.1, h.2]

lemma pyAbs_nodot {I : List Char} (hI : ∀ c ∈ I, isDigitChar c = true) :
    pyAbs I = (digitsVal I : ℚ) := by
  have h := intDigits_fracDigits_nodot hI
  rw [pyAbs, h.1, h.2]
  simp [digitsVal]

lemma pyFloat_neg (t : List Char) : pyFloat ('-' :: t) = -pyAbs t := by
  simp [pyFloat]

lemma pyFloat_plus (t : List Char) : pyFloat ('+' :: t) = pyAbs t := by
  simp [pyFloat]

lemma pyFloat_digit {c : Char} (t : List Char) (hc : isDigitChar c = true) :
    pyFloat (c :: t) = pyAbs (c :: t) := by
  have h1 := ne_minus_of_digit hc
  have h2 := ne_plus_of_digit hc
  simp [pyFloat, h1, h2]

/-! ## Provenance: every extracted value comes from a token in the text -/

lemma tier23_eq_some_imp {T : List Char} {v : ℚ}
    (h : extractTier23 T = some v) :
    ∃ j g, matchMOSAt (T.drop j) = some g ∧ v = pyFloat g := by
  rcases hc : searchCalc T with _ | g
  · rw [extractTier23, hc] at h
    rcases hm : searchMOS T with _ | g
    · rw [hm] at h; exact absurd h (by simp)
    · rw [hm] at h
      rcases searchMOS_eq_some_exists hm with ⟨j, hj⟩
      exact ⟨j, g, hj, by simpa using h.symm⟩
  · rw [extractTier23, hc] at h
    rcases searchCalc_eq_some_exists hc with ⟨j, hj⟩
    exact ⟨j, g, hj, by simpa using h.symm⟩

lemma extract_eq_some_imp {T : List Char} {v : ℚ}
    (h : extractMosFromText T = some v) :
    ∃ j g, matchMOSAt (T.drop j) = some g ∧ v = pyFloat g := by
  by_cases hT : T = []
  · subst hT; exact absurd h (by simp [extractMosFromText])
  rcases hf : findSub mosKeyword (T.map Char.toLower) with _ | idx
  · have h23 : extractTier23 T = some v := by
      simpa [extractMosFromText, hT, hf] using h
    exact tier23_eq_some_imp h23
  · rcases hw : searchMOS ((T.drop idx).take 700) with _ | g
    · have h23 : extractTier23 T = some v := by
        simpa [extractMosFromText, hT, hf, hw] using h
      exact tier23_eq_some_imp h23
    · have hv : v = pyFloat g := by
        have := h
        simp [extractMosFromText, hT, hf, hw] at this
        exact this.symm
      rcases searchMOS_eq_some_exists hw with ⟨j, hj⟩
      refine ⟨idx + j, g, ?_, hv⟩
      have hw2 : ((T.drop idx).take 700).drop j = (T.drop (idx + j)).take (700 - j) := by
        rw [List.drop_take, List.drop_drop]
      rw [hw2] at hj
      exact matchMOSAt_of_take hj

lemma extract_isSome_of_match {T : List Char} {j : ℕ} {g : List Char}
    (hj : matchMOSAt (T.drop j) = some g) : (extractMosFromText T).isSome := by
  have hT : T ≠ [] := by
    rintro rfl
    rw [List.drop_nil] at hj
    exact absurd hj (by simp [matchMOSAt])
  have hs : (searchMOS T).isSome := searchMOS_isSome_of_matchMOSAt hj
  rcases hm : searchMOS T with _ | g0
  · rw [hm] at hs; exact absurd hs (by simp)
  rcases hf : findSub mosKeyword (T.map Char.toLower) with _ | idx
  · rcases hc : searchCalc T with _ | g1
    · simp [extractMosFromText, hT, hf, extractTier23, hc, hm]
    · simp [extractMosFromText, hT, hf, extractTier23, hc]
  · rcases hw : searchMOS ((T.drop idx).take 700) with _ | g1
    · rcases hc : searchCalc T with _ | g2
      · simp [extractMosFromText, hT, hf, hw, extractTier23, hc, hm]
      · simp [extractMosFromText, hT, hf, hw, extractTier23, hc]
    · simp [extractMosFromText, hT, hf, hw]

/-! ## Claim theorems -/

/-- C1 (counterexample): the text "Margin of Safety: 5% and -19.02%"
contains the keyword (at index 0) followed within 700 characters by the
signed percentage token "-19.02%" (at index 25), yet the extractor
returns 5, the value of the *first* token of the window, not -19.02.
The claim as stated is therefore false: a percentage token earlier in
the window shadows `P`. -/
theorem mos_C1_counterexample :
    findSub mosKeyword ("Margin of Safety: 5% and -19.02%".data.map Char.toLower) = some 0 ∧
    matchMOSAt ("Margin of Safety: 5% and -19.02%".data.drop 25) = some "-19.02".data ∧
    (25 : ℕ) < 700 ∧
    extractMosFromText "Margin of Safety: 5% and -19.02%".data = some 5 ∧
    pyFloat "-19.02".data ≠ 5 := by
  refine ⟨by decide, by decide, by norm_num, ?_, ?_⟩
  · have h := @extract_of_tier1 "Margin of Safety: 5% and -19.02%".data
      0 ['5'] (by decide) (by decide)
    rw [h.1]
    have h5 : pyFloat ['5'] = 5 := by
      rw [pyFloat_digit [] (by decide), pyAbs_nodot (by decide)]
      norm_num [show digitsVal ['5'] = 5 from by decide]
    rw [h5]
  · have hd : "-19.02".data = '-' :: (['1', '9'] ++ '.' :: ['0', '2']) := by decide
    rw [hd, pyFloat_neg, pyAbs_append_dot _ (by decide)]
    norm_num [show digitsVal ['1', '9'] = 19 from by decide,
      show digitsVal ['0', '2'] = 2 from by decide]

/-- C1 (amended): if the 700-character window of `T` starting at the
first case-insensitive occurrence of "margin of safety" contains a
signed percentage token, `extract` returns the numeric value of the
*first* such token in that window — percentage tokens later in the
window or elsewhere in `T` are ignored. -/
theorem mos_C1_amended (T : List Char) (idx : ℕ) (g : List Char)
    (h1 : findSub mosKeyword (T.map Char.toLower) = some idx)
    (h2 : searchMOS ((T.drop idx).take 700) = some g) :
    extractMosFromText T = some (pyFloat g) :=
  (extract_of_tier1 h1 h2).1

/-- C1 (witness for the amended claim). -/
theorem mos_C1_amended_witness :
    extractMosFromText "margin of safety 50.43 %".data = some (pyFloat "50.43".data) :=
  mos_C1_amended _ 0 _ (by decide) (by decide)

/-- C2: tier 1 — when the keyword occurs (first occurrence at `idx` in
the lower-cased text) and the 700-character window of the original text
starting there contains an `MOS_RE` token, the extractor returns the
numeric value of the first such token, produced by tier 1 (so tiers 2
and 3 are not consulted). -/
theorem mos_C2_tier1_anchored (T : List Char) (idx : ℕ) (g : List Char)
    (h1 : findSub mosKeyword (T.map Char.toLower) = some idx)
    (h2 : searchMOS ((T.drop idx).take 700) = some g) :
    extractMosFromText T = some (pyFloat g) ∧
      extractMosTiered T = some (pyFloat g, 1) :=
  extract_of_tier1 h1 h2

/-- C2 (witness). -/
theorem mos_C2_tier1_anchored_witness :
    extractMosFromText "Margin of Safety: -19.02%".data = some (pyFloat "-19.02".data) ∧
      extractMosTiered "Margin of Safety: -19.02%".data = some (pyFloat "-19.02".data, 1) :=
  mos_C2_tier1_anchored _ 0 _ (by decide) (by decide)

/-- C3: tier 2 — when tier 1 produces no match (for every keyword
occurrence index, the window search fails; vacuously when the keyword is
absent) and the calculation pattern `=\s*([+-]?\d+(?:\.\d+)?)\s*%`
matches somewhere in `T`, the extractor returns the numeric value of the
first such match, produced by tier 2. -/
theorem mos_C3_tier2_calc (T : List Char) (g : List Char)
    (h1 : ∀ idx, findSub mosKeyword (T.map Char.toLower) = some idx →
      searchMOS ((T.drop idx).take 700) = none)
    (h2 : searchCalc T = some g) :
    extractMosFromText T = some (pyFloat g) ∧
      extractMosTiered T = some (pyFloat g, 2) :=
  extract_of_tier2 h1 h2

/-- C3 (witness). -/
theorem mos_C3_tier2_calc_witness :
    extractMosFromText "fair value = -19.02 % done".data = some (pyFloat "-19.02".data) ∧
      extractMosTiered "fair value = -19.02 % done".data = some (pyFloat "-19.02".data, 2) := by
  refine mos_C3_tier2_calc _ _ ?_ (by decide)
  intro idx h
  rw [show findSub mosKeyword ("fair value = -19.02 % done".data.map Char.toLower) = none
    from by decide] at h
  exact absurd h (by simp)

/-- C4: tier 3 and absence — when neither tier 1 nor tier 2 produces a
match, the extractor returns the value of the first `MOS_RE` token
anywhere in `T`, or `none` when there is none; the extractor is a total
function (it never raises) and yields `none` on the empty text. -/
theorem mos_C4_tier3_absence (T : List Char)
    (h1 : ∀ idx, findSub mosKeyword (T.map Char.toLower) = some idx →
      searchMOS ((T.drop idx).take 700) = none)
    (h2 : searchCalc T = none) :
    extractMosFromText T = (searchMOS T).map pyFloat ∧
      (searchMOS T = none → extractMosFromText T = none) ∧
      extractMosFromText [] = none := by
  have h := extract_of_tier3 h1 h2
  refine ⟨h.1, ?_, by decide⟩
  intro hn
  rw [h.1, hn]
  rfl

/-- C4 (witness): a percentage-free text with no keyword yields `none`. -/
theorem mos_C4_tier3_absence_witness :
    extractMosFromText "irrelevant text with no value".data =
      (searchMOS "irrelevant text with no value".data).map pyFloat ∧
      extractMosFromText "irrelevant text with no value".data = none := by
  have h := mos_C4_tier3_absence "irrelevant text with no value".data
    (fun idx hidx => by
      rw [show findSub mosKeyword
        ("irrelevant text with no value".data.map Char.toLower) = none from by decide] at hidx
      exact absurd hidx (by simp))
    (by decide)
  exact ⟨h.1, h.2.1 (by decide)⟩

/-- C5: when `prefer_requests` is true and the fast path returns a
non-absent value, the orchestrator returns that value and the render
path is not invoked (the flag in the model stays `false`). -/
theorem mos_C5_fast_short_circuit (v : ℚ)
    (render : Except Unit (Option ℚ × String)) :
    get_margin_of_safety true (.ok (some v)) render = (.ok (some v), false) :=
  rfl

/-- C6: a fast-path exception or an absent fast-path value always leads
to the render path being attempted, and when the render path completes
with text from which nothing is extracted the overall result is `ok
none` — absence, not a raised error. -/
theorem mos_C6_fast_failure_swallowed (fast : Except Unit (Option ℚ))
    (rtext : List Char)
    (h : fast = .error () ∨ fast = .ok none) :
    (get_margin_of_safety true fast (playwrightResult false rtext)).2 = true ∧
      (extractMosFromText rtext = none →
        get_margin_of_safety true fast (playwrightResult false rtext) =
          (.ok none, true)) := by
  constructor
  · rcases h with rfl | rfl <;> rfl
  · intro hn
    rcases h with rfl | rfl <;>
      simp [get_margin_of_safety, playwrightResult, hn]

/-- C6 (witness): fast path raises, rendered text has no percentage. -/
theorem mos_C6_fast_failure_swallowed_witness :
    (get_margin_of_safety true (.error ())
        (playwrightResult false "no value on this page".data)).2 = true ∧
      get_margin_of_safety true (.error ())
        (playwrightResult false "no value on this page".data) = (.ok none, true) := by
  have h := mos_C6_fast_failure_swallowed (.error ())
    "no value on this page".data (Or.inl rfl)
  exact ⟨h.1, h.2 (by decide)⟩

/-- C7 (counterexample): status 304 is not a 2xx success status and is
not 403, yet `get_margin_of_safety_requests` neither raises nor returns
via the 403 branch: `raise_for_status` raises only for 4xx/5xx, so a 304
response falls through to parsing and returns a value.  The claim "any
other non-2xx HTTP status causes it to raise" is therefore false. -/
theorem mos_C7_counterexample :
    ¬(200 ≤ 304 ∧ 304 < 300) ∧ (304 : ℕ) ≠ 403 ∧
      get_margin_of_safety_requests 304 [] = .ok none := by
  refine ⟨by norm_num, by norm_num, ?_⟩
  rfl

/-- C7 (amended): a 403 status returns `None` without raising; any
*4xx or 5xx* status other than 403 raises; every status outside 400–599
(including 1xx, 2xx and 3xx) does not raise and returns the parse of the
body text. -/
theorem mos_C7_amended (status : ℕ) (body : List Char) :
    (status = 403 → get_margin_of_safety_requests status body = .ok none) ∧
      (400 ≤ status → status < 600 → status ≠ 403 →
        get_margin_of_safety_requests status body = .error ()) ∧
      (status < 400 ∨ 600 ≤ status →
        get_margin_of_safety_requests status body =
          .ok (extractMosFromText body)) := by
  refine ⟨?_, ?_, ?_⟩
  · rintro rfl; rfl
  · intro h4 h6 hne
    have hb : raiseForStatusRaises status = true := by
      simp [raiseForStatusRaises, h4, h6]
    rw [get_margin_of_safety_requests, if_neg hne, if_pos hb]
  · intro h
    have hne : status ≠ 403 := by omega
    have hb : raiseForStatusRaises status = false := by
      simp only [raiseForStatusRaises, Bool.and_eq_false_iff,
        decide_eq_false_iff_not, not_le, not_lt]
      omega
    rw [get_margin_of_safety_requests, if_neg hne, if_neg (by simp [hb])]

/-- C7 (witness): the three branches at statuses 403, 500 and 200. -/
theorem mos_C7_amended_witness :
    get_margin_of_safety_requests 403 [] = .ok none ∧
      get_margin_of_safety_requests 500 [] = .error () ∧
      get_margin_of_safety_requests 200 [] = .ok (extractMosFromText []) :=
  ⟨(mos_C7_amended 403 []).1 rfl,
    (mos_C7_amended 500 []).2.1 (by norm_num) (by norm_num) (by norm_num),
    (mos_C7_amended 200 []).2.2 (Or.inl (by norm_num))⟩

/-- C8 (counterexample): on the exit path where `page.goto` raises
(e.g. a navigation timeout), the function executes `ctx.close()` and
`browser.close()` zero times, not once: the `async with` body has no
`try`/`finally`, so the close calls after `page.evaluate` are skipped
when the exception propagates.  The claim "closed exactly once on every
exit path" is therefore false. -/
theorem mos_C8_counterexample :
    (playwrightEvents true).count PWEvent.ctxClose = 0 ∧
      (playwrightEvents true).count PWEvent.browserClose = 0 := by
  decide

/-- C8 (amended): on the successful exit path the browser context and
the browser instance are each closed exactly once; on an exit path where
navigation raises, the function itself performs no close call (teardown
is left to the `async_playwright` context-manager exit). -/
theorem mos_C8_amended :
    ((playwrightEvents false).count PWEvent.ctxClose = 1 ∧
      (playwrightEvents false).count PWEvent.browserClose = 1) ∧
      ((playwrightEvents true).count PWEvent.ctxClose = 0 ∧
        (playwrightEvents true).count PWEvent.browserClose = 0) := by
  decide

/-- C9: sign and fractional precision are preserved exactly, with no
rounding or clamping: the canonical example returns exactly -19.02 (a
negative rational), and in general the value of a matched token
`[+-]?digits(.digits)?` is the signed decimal it denotes. -/
theorem mos_C9_sign_precision :
    extractMosFromText "Margin of Safety: -19.02%".data = some (-(1902 : ℚ) / 100) ∧
      (-(1902 : ℚ) / 100) < 0 ∧
      ∀ I F : List Char, (∀ c ∈ I, isDigitChar c = true) →
        (∀ c ∈ F, isDigitChar c = true) → I ≠ [] →
        pyFloat ('-' :: (I ++ '.' :: F)) =
            -((digitsVal I : ℚ) + (digitsVal F : ℚ) / 10 ^ F.length) ∧
          pyFloat ('+' :: (I ++ '.' :: F)) =
            (digitsVal I : ℚ) + (digitsVal F : ℚ) / 10 ^ F.length ∧
          pyFloat (I ++ '.' :: F) =
            (digitsVal I : ℚ) + (digitsVal F : ℚ) / 10 ^ F.length ∧
          pyFloat ('-' :: I) = -(digitsVal I : ℚ) ∧
          pyFloat ('+' :: I) = (digitsVal I : ℚ) ∧
          pyFloat I = (digitsVal I : ℚ) := by
  refine ⟨?_, by norm_num, ?_⟩
  · have h := @extract_of_tier1 "Margin of Safety: -19.02%".data
      0 "-19.02".data (by decide) (by decide)
    rw [h.1]
    have hd : "-19.02".data = '-' :: (['1', '9'] ++ '.' :: ['0', '2']) := by decide
    rw [hd, pyFloat_neg, pyAbs_append_dot _ (by decide)]
    norm_num [show digitsVal ['1', '9'] = 19 from by decide,
      show digitsVal ['0', '2'] = 2 from by decide]
  · intro I F hI hF hne
    rcases I with _ | ⟨c, t⟩
    · exact absurd rfl hne
    have hc : isDigitChar c = true := hI c (by simp)
    refine ⟨?_, ?_, ?_, ?_, ?_, ?_⟩
    · rw [pyFloat_neg, pyAbs_append_dot _ hI]
    · rw [pyFloat_plus, pyAbs_append_dot _ hI]
    · rw [List.cons_append, pyFloat_digit _ hc, ← List.cons_append,
        pyAbs_append_dot _ hI]
    · rw [pyFloat_neg, pyAbs_nodot hI]
    · rw [pyFloat_plus, pyAbs_nodot hI]
    · rw [pyFloat_digit _ hc, pyAbs_nodot hI]

/-- C9 (witness): the general token lemma applied to "-19.02". -/
theorem mos_C9_sign_precision_witness :
    pyFloat ('-' :: (['1', '9'] ++ '.' :: ['0', '2'])) = -((19 : ℚ) + 2 / 100) := by
  have h := (mos_C9_sign_precision.2.2 ['1', '9'] ['0', '2']
    (by decide) (by decide) (by decide)).1
  rw [h]
  norm_num [show digitsVal ['1', '9'] = 19 from by decide,
    show digitsVal ['0', '2'] = 2 from by decide]

/-- C10: the extractor returns a value iff some position of the text
carries an `MOS_RE` token, and every returned value is the parse of a
token actually occurring in the text — never fabricated. -/
theorem mos_C10_provenance (T : List Char) :
    ((extractMosFromText T).isSome ↔ ∃ j g, matchMOSAt (T.drop j) = some g) ∧
      ∀ v, extractMosFromText T = some v →
        ∃ j g, matchMOSAt (T.drop j) = some g ∧ v = pyFloat g := by
  constructor
  · constructor
    · intro hs
      rcases Option.isSome_iff_exists.1 hs with ⟨v, hv⟩
      rcases extract_eq_some_imp hv with ⟨j, g, hj, _⟩
      exact ⟨j, g, hj⟩
    · rintro ⟨j, g, hj⟩
      exact extract_isSome_of_match hj
  · intro v hv
    exact extract_eq_some_imp hv

/-- C10 (witness): the provenance direction applied to a concrete text
whose tier-3 result is the token "7.5". -/
theorem mos_C10_provenance_witness :
    ∃ j g, matchMOSAt ("abc 7.5% def".data.drop j) = some g ∧
      pyFloat "7.5".data = pyFloat g := by
  apply (mos_C10_provenance "abc 7.5% def".data).2 (pyFloat "7.5".data)
  have h := @extract_of_tier3 "abc 7.5% def".data
    (fun idx hidx => by
      rw [show findSub mosKeyword ("abc 7.5% def".data.map Char.toLower) = none
        from by decide] at hidx
      exact absurd hidx (by simp))
    (by decide)
  rw [h.1, show searchMOS "abc 7.5% def".data = some "7.5".data from by decide]
  rfl
